import Mathlib

/-!
Shallow embedding of the `snowflake-rs` crate (files `src/snowflake.rs`,
`src/builder.rs`, `src/error.rs`) and proofs about its ID-assembly state
machine, its bit-layout packing/decomposition, and its builder validation.

Machine integers are modelled as `Nat`/`Int` with explicit wrapping
(`% 2 ^ w`, two's complement) at the points where the Rust types can wrap.
Where the source relies on Rust release-build semantics for an overflowing
shift (the shift amount is masked to the register width) the model applies
the same masking and says so in a comment.
-/

namespace SnowflakeRs

/-! ## Machine-integer helpers -/

/-- Interpret the low 64 bits of a natural number as a signed 64-bit integer
(two's complement), i.e. the value a Rust `i64` holds for that bit pattern. -/
def toInt64 (n : Nat) : Int :=
  if n % 2 ^ 64 < 2 ^ 63 then ((n % 2 ^ 64 : Nat) : Int)
  else ((n % 2 ^ 64 : Nat) : Int) - 2 ^ 64

/-- Rust `i as u64` for `i : i64`: the value modulo `2 ^ 64`. -/
def intToU64 (i : Int) : Nat := (i % 2 ^ 64).toNat

/-- Rust `<<` on `u64` in a release build: the shift amount is masked to the
register width and the result wraps modulo `2 ^ 64`. -/
def u64shl (x k : Nat) : Nat := (x <<< (k % 64)) % 2 ^ 64

/-- Rust `<<` on `u16` in a release build: the shift amount is masked to the
register width and the result wraps modulo `2 ^ 16`. -/
def u16shl (x k : Nat) : Nat := (x <<< (k % 16)) % 2 ^ 16

/-! ## Error type (`src/error.rs`)

`MachineIdFailed` / `DataCenterIdFailed` carry a boxed error in the source;
the payload plays no role in any property, so it is dropped here. -/

inductive Error where
  | StartTimeAheadOfCurrentTime
  | MachineIdFailed
  | DataCenterIdFailed
  | CheckMachineIdFailed
  | CheckDataCenterIdFailed
  | OverTimeLimit
  | NoPrivateIPv4
  | MutexPoisoned
  | InvalidBitLength (bit_len_time bit_len_sequence bit_len_data_center_id
      bit_len_machine_id : Nat)
deriving Repr, DecidableEq

/-! ## `DecomposedSnowflake` and the two decomposition operations
(`src/snowflake.rs`, lines 106-156 and 248-274) -/

structure DecomposedSnowflake where
  id : Nat
  time : Nat
  sequence : Nat
  data_center_id : Nat
  machine_id : Nat
deriving Repr, DecidableEq

/-- `DecomposedSnowflake::decompose`. The source `assert_eq!` on the width sum
(computed in `u32`, hence without wrapping) aborts the call when the four
widths do not total 63; the abort is modelled as `none`. Under the guard every
shift amount is at most 63 and every intermediate fits in a `u64`, so the
`u64` arithmetic of the source is exact and needs no wrapping here. -/
def DecomposedSnowflake.decompose (id bit_len_time bit_len_sequence
    bit_len_data_center_id bit_len_machine_id : Nat) : Option DecomposedSnowflake :=
  if bit_len_time + bit_len_sequence + bit_len_data_center_id + bit_len_machine_id = 63 then
    let machine_id_mask := (1 : Nat) <<< bit_len_machine_id - 1
    let data_center_id_mask :=
      ((1 : Nat) <<< bit_len_data_center_id - 1) <<< bit_len_machine_id
    let sequence_mask := ((1 : Nat) <<< bit_len_sequence - 1) <<<
      (bit_len_data_center_id + bit_len_machine_id)
    let time_shift := bit_len_sequence + bit_len_data_center_id + bit_len_machine_id
    let sequence_shift := bit_len_data_center_id + bit_len_machine_id
    let data_center_shift := bit_len_machine_id
    some
      { id := id
        time := id >>> time_shift
        sequence := (id &&& sequence_mask) >>> sequence_shift
        data_center_id := (id &&& data_center_id_mask) >>> data_center_shift
        machine_id := id &&& machine_id_mask }
  else none

/-- `const BIT_LEN_TIME` (bit length of time in the crate-level constants). -/
def BIT_LEN_TIME : Nat := 39
/-- `const BIT_LEN_SEQUENCE`. -/
def BIT_LEN_SEQUENCE : Nat := 8
/-- `const BIT_LEN_DATA_CENTER_ID`. -/
def BIT_LEN_DATA_CENTER_ID : Nat := 8
/-- `const BIT_LEN_MACHINE_ID = 63 - BIT_LEN_TIME - BIT_LEN_SEQUENCE - BIT_LEN_DATA_CENTER_ID`. -/
def BIT_LEN_MACHINE_ID : Nat := 63 - BIT_LEN_TIME - BIT_LEN_SEQUENCE - BIT_LEN_DATA_CENTER_ID

/-- `const DECOMPOSE_MASK_SEQUENCE`. -/
def DECOMPOSE_MASK_SEQUENCE : Nat :=
  ((1 : Nat) <<< BIT_LEN_SEQUENCE - 1) <<< (BIT_LEN_DATA_CENTER_ID + BIT_LEN_MACHINE_ID)
/-- `const MASK_DATA_CENTER_ID`. -/
def MASK_DATA_CENTER_ID : Nat :=
  ((1 : Nat) <<< BIT_LEN_DATA_CENTER_ID - 1) <<< BIT_LEN_MACHINE_ID
/-- `const MASK_MACHINE_ID`. -/
def MASK_MACHINE_ID : Nat := (1 : Nat) <<< BIT_LEN_MACHINE_ID - 1

/-- The free function `decompose(id: u64)` (`src/snowflake.rs` line 266): it
takes no layout argument and uses the crate-level width constants. -/
def decompose (id : Nat) : DecomposedSnowflake :=
  { id := id
    time := id >>> (BIT_LEN_SEQUENCE + BIT_LEN_MACHINE_ID + BIT_LEN_DATA_CENTER_ID)
    sequence := (id &&& DECOMPOSE_MASK_SEQUENCE) >>>
      (BIT_LEN_MACHINE_ID + BIT_LEN_DATA_CENTER_ID)
    data_center_id := (id &&& MASK_DATA_CENTER_ID) >>> BIT_LEN_MACHINE_ID
    machine_id := id &&& MASK_MACHINE_ID }

/-! ## Generator state and `next_id` (`src/snowflake.rs`, lines 12-104) -/

/-- `Internals`: the mutable state behind the mutex. `elapsed_time` is an
`i64`, `sequence` a `u16` (kept as a `Nat` below `2 ^ 16`). -/
structure Internals where
  elapsed_time : Int
  sequence : Nat
deriving Repr, DecidableEq

/-- `SharedSnowflake`: the immutable configuration shared by all handles
(the mutex-wrapped `Internals` is passed around explicitly instead). -/
structure SharedSnowflake where
  start_time : Int
  data_center_id : Nat
  machine_id : Nat
  bit_len_time : Nat
  bit_len_sequence : Nat
  bit_len_data_center_id : Nat
  bit_len_machine_id : Nat
deriving Repr, DecidableEq

/-- `const SNOWFLAKE_TIME_UNIT: i64 = 1_000_000` (nanoseconds per tick). -/
def SNOWFLAKE_TIME_UNIT : Int := 1000000

/-- `sleep_time(overtime)`, as a duration in nanoseconds. The second clock
read inside the function is the parameter `now_ns`
(`Utc::now().timestamp_nanos_opt()`); Rust `%` on `i64` truncates toward
zero, which is `Int.tmod`. `Duration` subtraction would abort on a negative
result; the model returns the signed value. -/
def sleep_time (overtime : Int) (now_ns : Int) : Int :=
  (intToU64 overtime : Int) * SNOWFLAKE_TIME_UNIT -
    (intToU64 (Int.tmod now_ns SNOWFLAKE_TIME_UNIT) : Int)

/-- The ID assembly of `next_id` (`src/snowflake.rs` lines 72-80). The three
shift amounts are `u8` sums (wrapping modulo 256 in a release build); each
`<<` is a `u64` shift, modelled by `u64shl`; `machine_id` is a `u16`, so its
`as u64` conversion is the identity. -/
def pack_id (g : SharedSnowflake) (st : Internals) : Nat :=
  let time_shift := (g.bit_len_sequence + g.bit_len_data_center_id +
    g.bit_len_machine_id) % 256
  let sequence_shift := (g.bit_len_data_center_id + g.bit_len_machine_id) % 256
  let data_center_shift := g.bit_len_machine_id
  u64shl (intToU64 st.elapsed_time) time_shift |||
    u64shl st.sequence sequence_shift |||
    u64shl g.data_center_id data_center_shift |||
    g.machine_id

instance {ε α : Type} [DecidableEq ε] [DecidableEq α] :
    DecidableEq (Except ε α) := fun a b =>
  match a, b with
  | .ok x, .ok y =>
    if h : x = y then .isTrue (by rw [h]) else .isFalse (by simp [h])
  | .error x, .error y =>
    if h : x = y then .isTrue (by rw [h]) else .isFalse (by simp [h])
  | .ok _, .error _ => .isFalse (by simp)
  | .error _, .ok _ => .isFalse (by simp)

/-- Result of one `next_id` call: the updated state, the duration handed to
`thread::sleep` when the sequence-exhaustion branch ran, and the returned
value or error. -/
structure NextIdResult where
  internals : Internals
  slept : Option Int
  result : Except Error Nat
deriving Repr, DecidableEq

/-- The tick/sequence update of `next_id` (`src/snowflake.rs` lines 55-66),
together with the duration handed to `thread::sleep` when the
sequence-exhaustion branch runs. `sequence_mask` is a `u16` whose shift
follows release-build masking (`u16shl`); the `u16` increment of `sequence`
wraps modulo `2 ^ 16`. -/
def next_id_update (g : SharedSnowflake) (st : Internals) (current now_ns : Int) :
    Internals × Option Int :=
  let sequence_mask := u16shl 1 g.bit_len_sequence - 1
  if st.elapsed_time < current then
    (⟨current, 0⟩, none)
  else
    let seq := ((st.sequence + 1) % 2 ^ 16) &&& sequence_mask
    if seq = 0 then
      (⟨st.elapsed_time + 1, seq⟩,
        some (sleep_time (st.elapsed_time + 1 - current) now_ns))
    else
      (⟨st.elapsed_time, seq⟩, none)

/-- One execution of `Snowflake::next_id` under the mutex. The clock is
external, so its two reads are parameters: `current` is
`current_elapsed_time(start_time)` and `now_ns` is the nanosecond timestamp
read inside `sleep_time`. The `i64` literal shift `1 << bit_len_time` wraps
in two's complement (`toInt64`, shift amount masked to the register
width). -/
def next_id (g : SharedSnowflake) (st : Internals) (current : Int)
    (now_ns : Int) : NextIdResult :=
  let step := next_id_update g st current now_ns
  if toInt64 ((1 : Nat) <<< (g.bit_len_time % 64)) ≤ step.1.elapsed_time then
    ⟨step.1, step.2, .error .OverTimeLimit⟩
  else
    ⟨step.1, step.2, .ok (pack_id g step.1)⟩

/-! ## Builder (`src/builder.rs`) -/

/-- `Builder`. The machine-id / data-center-id closures are modelled by what
they return when called (`none` = no closure installed); the check closures
are plain boolean predicates. -/
structure Builder where
  start_time : Option Int
  machine_id : Option (Except Unit Nat)
  data_center_id : Option (Except Unit Nat)
  check_machine_id : Option (Nat → Bool)
  check_data_center_id : Option (Nat → Bool)
  bit_len_time : Nat
  bit_len_sequence : Nat
  bit_len_data_center_id : Nat
  bit_len_machine_id : Nat

/-- `Builder::new()`: default widths 41/12/5/5, nothing else set. -/
def Builder.new : Builder := ⟨none, none, none, none, none, 41, 12, 5, 5⟩

/-- `to_snowflake_time`: nanoseconds divided by the tick unit, `i64`
division truncating toward zero. -/
def to_snowflake_time (ns : Int) : Int := Int.tdiv ns SNOWFLAKE_TIME_UNIT

/-- Nanosecond timestamp of the default epoch `2022-01-01T00:00:00Z`. -/
def default_epoch_ns : Int := 1640995200000000000

/-- `Builder::finalize` for a build without the `ip-fallback` feature. The
current wall-clock time enters only through the start-time check and is the
parameter `now_ns`. The width sum is `u8` arithmetic, wrapping modulo 256 in
a release build; the two mask computations are `u16` shifts with
release-build masking (`u16shl`). -/
def Builder.finalize (b : Builder) (now_ns : Int) : Except Error SharedSnowflake :=
  if (b.bit_len_time + b.bit_len_sequence + b.bit_len_data_center_id +
      b.bit_len_machine_id) % 256 ≠ 63 then
    .error (.InvalidBitLength b.bit_len_time b.bit_len_sequence
      b.bit_len_data_center_id b.bit_len_machine_id)
  else
    let start_check : Except Error Int :=
      match b.start_time with
      | some ns => if now_ns < ns then .error .StartTimeAheadOfCurrentTime
          else .ok (to_snowflake_time ns)
      | none => .ok (to_snowflake_time default_epoch_ns)
    match start_check with
    | .error e => .error e
    | .ok start_time =>
      let machine_id_mask := u16shl 1 b.bit_len_machine_id - 1
      match b.machine_id with
      | none => .error .MachineIdFailed
      | some (.error _) => .error .MachineIdFailed
      | some (.ok machine_id) =>
        if machine_id_mask < machine_id then .error .MachineIdFailed
        else if (match b.check_machine_id with
            | some check => !check machine_id
            | none => false) then .error .CheckMachineIdFailed
        else
          let data_center_id_mask := u16shl 1 b.bit_len_data_center_id - 1
          match b.data_center_id with
          | none => .error .DataCenterIdFailed
          | some (.error _) => .error .DataCenterIdFailed
          | some (.ok data_center_id) =>
            if data_center_id_mask < data_center_id then .error .DataCenterIdFailed
            else if (match b.check_data_center_id with
                | some check => !check data_center_id
                | none => false) then .error .CheckDataCenterIdFailed
            else .ok ⟨start_time, data_center_id, machine_id, b.bit_len_time,
              b.bit_len_sequence, b.bit_len_data_center_id, b.bit_len_machine_id⟩

/-! ## Spec-side state machine, overflow-checked shifts, serialised runs -/

/-- Modelled from the spec (section 4.2, steps 2 and 3): the prescribed
update of `(elapsed_ticks, sequence)` for the current tick, used to compare
`next_id`'s actual update against the specified one. -/
def spec_state_update (bit_len_sequence : Nat) (st : Internals) (current : Int) :
    Internals :=
  if st.elapsed_time < current then ⟨current, 0⟩
  else if (st.sequence + 1) % 2 ^ bit_len_sequence = 0 then ⟨st.elapsed_time + 1, 0⟩
  else ⟨st.elapsed_time, (st.sequence + 1) % 2 ^ bit_len_sequence⟩

/-- Rust `x << k` on `u16` with the shift-amount overflow made observable:
`none` models the arithmetic-overflow abort of a debug build (a release
build masks the shift amount instead, see `u16shl`). -/
def u16_shl_checked (x k : Nat) : Option Nat :=
  if k < 16 then some ((x <<< k) % 2 ^ 16) else none

/-- The time-limit bound `1i64 << k` with overflow made observable: `none`
when the shift amount reaches 64 or when the mathematical value `2 ^ k`
exceeds the largest `i64` (the shift then wraps to a negative bound, see
`toInt64`). -/
def i64_one_shl_checked (k : Nat) : Option Int :=
  if k < 64 ∧ (1 : Nat) <<< k < 2 ^ 63 then some (((1 : Nat) <<< k : Nat) : Int)
  else none

/-- A sequence of `next_id` calls on one shared generator, serialised by the
mutex (the critical section admits one thread at a time, so any thread
interleaving is some serialisation): each list element supplies the two
clock reads of one call. Returns the final state and the values returned by
the successful calls, in order. -/
def run_calls (g : SharedSnowflake) (st : Internals) :
    List (Int × Int) → Internals × List Nat
  | [] => (st, [])
  | (current, now_ns) :: rest =>
    let r := next_id g st current now_ns
    let rest_run := run_calls g r.internals rest
    match r.result with
    | .ok id => (rest_run.1, id :: rest_run.2)
    | .error _ => (rest_run.1, rest_run.2)

/-- Configuration facts of a generator built from a layout that sums to 63
with identities validated against their width masks (what
`Builder::finalize` checks). -/
abbrev ConfigInv (g : SharedSnowflake) : Prop :=
  g.bit_len_time + g.bit_len_sequence + g.bit_len_data_center_id +
      g.bit_len_machine_id = 63 ∧
    g.data_center_id < 2 ^ g.bit_len_data_center_id ∧
    g.machine_id < 2 ^ g.bit_len_machine_id

/-- State invariant of the generator: holds at the zeroed initial state and
is preserved by every call (the sequence stays under the `u16`-masked
sequence width). -/
abbrev StateInv (g : SharedSnowflake) (st : Internals) : Prop :=
  0 ≤ st.elapsed_time ∧ st.sequence < 2 ^ (g.bit_len_sequence % 16)

/-! ## Bit-fiddling lemmas used to relate shifts, masks and arithmetic -/

/-- Splitting a natural number at bit `k` and OR-ing the parts back together
is the identity. -/
theorem shiftRight_shiftLeft_lor_mod (x k : Nat) :
    (x >>> k) <<< k ||| x % 2 ^ k = x := by
  apply Nat.eq_of_testBit_eq
  intro i
  simp only [Nat.testBit_lor, Nat.testBit_shiftLeft, Nat.testBit_shiftRight,
    Nat.testBit_mod_two_pow, ge_iff_le]
  by_cases h : k ≤ i
  · have h2 : k + (i - k) = i := by omega
    have h3 : ¬ i < k := by omega
    simp [h, h2, h3]
  · have h3 : i < k := by omega
    simp [h, h3]

/-- OR-ing a value shifted up by `k` bits with a value below `2 ^ k` is plain
addition: the two operands occupy disjoint bit ranges. -/
theorem shiftLeft_lor_eq_add (a b k : Nat) (hb : b < 2 ^ k) :
    a <<< k ||| b = a * 2 ^ k + b := by
  have hdiv : (a * 2 ^ k + b) >>> k = a := by
    rw [Nat.shiftRight_eq_div_pow, Nat.mul_comm a (2 ^ k),
      Nat.mul_add_div (Nat.pos_pow_of_pos k (by norm_num)),
      Nat.div_eq_of_lt hb, Nat.add_zero]
  have hmod : (a * 2 ^ k + b) % 2 ^ k = b := by
    rw [Nat.mul_comm a (2 ^ k), Nat.mul_add_mod, Nat.mod_eq_of_lt hb]
  have h := shiftRight_shiftLeft_lor_mod (a * 2 ^ k + b) k
  rw [hdiv, hmod] at h
  exact h

/-- Extracting a shifted mask commutes with shifting the value down first. -/
theorem and_shiftLeft_shiftRight (x m k : Nat) :
    (x &&& (m <<< k)) >>> k = (x >>> k) &&& m := by
  apply Nat.eq_of_testBit_eq
  intro i
  simp only [Nat.testBit_shiftRight, Nat.testBit_and, Nat.testBit_shiftLeft,
    ge_iff_le]
  have h1 : k ≤ k + i := Nat.le_add_right k i
  have h2 : k + i - k = i := by omega
  simp [h1, h2]

theorem one_shiftLeft_eq (k : Nat) : (1 : Nat) <<< k = 2 ^ k := by
  rw [Nat.shiftLeft_eq, Nat.one_mul]

/-- Masking with `2 ^ k - 1` is reduction modulo `2 ^ k`. -/
theorem and_one_shiftLeft_sub_one (x k : Nat) :
    x &&& ((1 : Nat) <<< k - 1) = x % 2 ^ k := by
  rw [one_shiftLeft_eq, Nat.and_pow_two_sub_one_eq_mod]

/-! ## Arithmetic characterisations of the packing and of the wrapped shifts -/

theorem mul_pow_lor_eq_add (a b k : Nat) (hb : b < 2 ^ k) :
    a * 2 ^ k ||| b = a * 2 ^ k + b := by
  calc a * 2 ^ k ||| b = a <<< k ||| b := by rw [Nat.shiftLeft_eq]
    _ = a * 2 ^ k + b := shiftLeft_lor_eq_add a b k hb

/-- Two adjacent fields, each within its width, fit in the joint width. -/
theorem field_pair_bound (a b j k : Nat) (ha : a < 2 ^ j) (hb : b < 2 ^ k) :
    a * 2 ^ k + b < 2 ^ (j + k) := by
  have h1 : a + 1 ≤ 2 ^ j := ha
  calc a * 2 ^ k + b < a * 2 ^ k + 2 ^ k := by omega
    _ = (a + 1) * 2 ^ k := by ring
    _ ≤ 2 ^ j * 2 ^ k := Nat.mul_le_mul_right _ h1
    _ = 2 ^ (j + k) := (pow_add 2 j k).symm

theorem split_div (q r k : Nat) (hr : r < 2 ^ k) : (q * 2 ^ k + r) / 2 ^ k = q := by
  rw [Nat.mul_comm q (2 ^ k), Nat.mul_add_div (Nat.pos_pow_of_pos k (by norm_num)),
    Nat.div_eq_of_lt hr, Nat.add_zero]

theorem split_mod (q r k : Nat) (hr : r < 2 ^ k) : (q * 2 ^ k + r) % 2 ^ k = r := by
  rw [Nat.mul_comm q (2 ^ k), Nat.mul_add_mod, Nat.mod_eq_of_lt hr]

theorem intToU64_of_nonneg (i : Int) (h0 : 0 ≤ i) (h : i < 2 ^ 64) :
    intToU64 i = i.toNat := by
  unfold intToU64
  rw [Int.emod_eq_of_lt h0 h]

theorem u64shl_eq (x k : Nat) (hk : k < 64) (hx : x * 2 ^ k < 2 ^ 64) :
    u64shl x k = x * 2 ^ k := by
  unfold u64shl
  rw [Nat.mod_eq_of_lt hk, Nat.shiftLeft_eq, Nat.mod_eq_of_lt hx]

theorem u16shl_one (k : Nat) (hk : k < 16) : u16shl 1 k = 2 ^ k := by
  unfold u16shl
  rw [Nat.mod_eq_of_lt hk, one_shiftLeft_eq,
    Nat.mod_eq_of_lt (Nat.pow_lt_pow_right (by norm_num) hk)]

theorem toInt64_one_shl (k : Nat) (hk : k ≤ 62) :
    toInt64 ((1 : Nat) <<< k) = 2 ^ k := by
  unfold toInt64
  rw [one_shiftLeft_eq]
  have h1 : (2 : Nat) ^ k < 2 ^ 63 :=
    Nat.pow_lt_pow_right (by norm_num) (by omega)
  have h2 : (2 : Nat) ^ k % 2 ^ 64 = 2 ^ k :=
    Nat.mod_eq_of_lt (lt_trans h1 (Nat.pow_lt_pow_right (by norm_num) (by omega)))
  rw [h2, if_pos h1]
  push_cast
  rfl

/-- `next_id`'s OR-of-shifts assembly, evaluated: with a valid layout and all
four fields inside their widths it is the positional sum of the fields. -/
theorem pack_id_eq (g : SharedSnowflake) (st : Internals)
    (hsum : g.bit_len_time + g.bit_len_sequence + g.bit_len_data_center_id +
      g.bit_len_machine_id = 63)
    (h0 : 0 ≤ st.elapsed_time)
    (ht : st.elapsed_time < (2 : Int) ^ g.bit_len_time)
    (hsq : st.sequence < 2 ^ g.bit_len_sequence)
    (hdc : g.data_center_id < 2 ^ g.bit_len_data_center_id)
    (hm : g.machine_id < 2 ^ g.bit_len_machine_id) :
    pack_id g st = st.elapsed_time.toNat *
        2 ^ (g.bit_len_sequence + g.bit_len_data_center_id + g.bit_len_machine_id) +
      st.sequence * 2 ^ (g.bit_len_data_center_id + g.bit_len_machine_id) +
      g.data_center_id * 2 ^ g.bit_len_machine_id + g.machine_id := by
  obtain ⟨st0, dc, m, bt, bs, bd, bm⟩ := g
  obtain ⟨e, sq⟩ := st
  simp only at hsum ht hsq hdc hm ⊢
  set t : Nat := e.toNat with hts
  have htn : t < 2 ^ bt := by
    have hcast : (t : Int) = e := Int.toNat_of_nonneg h0
    have : (t : Int) < (2 : Int) ^ bt := by rw [hcast]; exact ht
    exact_mod_cast this
  have hbt63 : bt ≤ 63 := by omega
  have he64 : e < (2 : Int) ^ 64 := by
    calc e < (2 : Int) ^ bt := ht
      _ ≤ (2 : Int) ^ 64 := by
        apply pow_le_pow_right₀ (by norm_num)
        omega
  unfold pack_id
  simp only
  rw [intToU64_of_nonneg e h0 he64, ← hts]
  have hmod3 : (bs + bd + bm) % 256 = bs + bd + bm := Nat.mod_eq_of_lt (by omega)
  have hmod2 : (bd + bm) % 256 = bd + bm := Nat.mod_eq_of_lt (by omega)
  rw [hmod3, hmod2]
  have pow_mono : ∀ j k : Nat, j ≤ k → (2 : Nat) ^ j ≤ 2 ^ k := fun j k h =>
    Nat.pow_le_pow_right (by norm_num) h
  have hA : u64shl t (bs + bd + bm) = t * 2 ^ (bs + bd + bm) := by
    apply u64shl_eq _ _ (by omega)
    calc t * 2 ^ (bs + bd + bm) < 2 ^ (bt + (bs + bd + bm)) :=
        field_pair_bound t 0 bt (bs + bd + bm) htn (Nat.pos_pow_of_pos _ (by norm_num))
          |>.trans_le (by omega)
      _ ≤ 2 ^ 64 := pow_mono _ _ (by omega)
  have hB : u64shl sq (bd + bm) = sq * 2 ^ (bd + bm) := by
    apply u64shl_eq _ _ (by omega)
    calc sq * 2 ^ (bd + bm) < 2 ^ (bs + (bd + bm)) :=
        field_pair_bound sq 0 bs (bd + bm) hsq (Nat.pos_pow_of_pos _ (by norm_num))
          |>.trans_le (by omega)
      _ ≤ 2 ^ 64 := pow_mono _ _ (by omega)
  have hC : u64shl dc bm = dc * 2 ^ bm := by
    apply u64shl_eq _ _ (by omega)
    calc dc * 2 ^ bm < 2 ^ (bd + bm) :=
        field_pair_bound dc 0 bd bm hdc (Nat.pos_pow_of_pos _ (by norm_num))
          |>.trans_le (by omega)
      _ ≤ 2 ^ 64 := pow_mono _ _ (by omega)
  rw [hA, hB, hC]
  have hr1 : dc * 2 ^ bm + m < 2 ^ (bd + bm) := field_pair_bound dc m bd bm hdc hm
  have hr2 : sq * 2 ^ (bd + bm) + (dc * 2 ^ bm + m) < 2 ^ (bs + (bd + bm)) :=
    field_pair_bound sq (dc * 2 ^ bm + m) bs (bd + bm) hsq hr1
  rw [Nat.lor_assoc, Nat.lor_assoc]
  rw [mul_pow_lor_eq_add dc m bm hm]
  rw [mul_pow_lor_eq_add sq (dc * 2 ^ bm + m) (bd + bm) hr1]
  rw [mul_pow_lor_eq_add t (sq * 2 ^ (bd + bm) + (dc * 2 ^ bm + m))
    (bs + bd + bm) (by rw [show bs + bd + bm = bs + (bd + bm) by omega]; exact hr2)]
  ring

/-- `DecomposedSnowflake::decompose` recovers the four fields from their
positional sum, for any layout summing to 63. -/
theorem decompose_sum_eq (bt bs bd bm t sq dc m : Nat)
    (hsum : bt + bs + bd + bm = 63)
    (_ht : t < 2 ^ bt) (hsq : sq < 2 ^ bs) (hdc : dc < 2 ^ bd) (hm : m < 2 ^ bm) :
    DecomposedSnowflake.decompose
        (t * 2 ^ (bs + bd + bm) + sq * 2 ^ (bd + bm) + dc * 2 ^ bm + m)
        bt bs bd bm =
      some ⟨t * 2 ^ (bs + bd + bm) + sq * 2 ^ (bd + bm) + dc * 2 ^ bm + m,
        t, sq, dc, m⟩ := by
  set X : Nat := t * 2 ^ (bs + bd + bm) + sq * 2 ^ (bd + bm) + dc * 2 ^ bm + m with hX
  have hr1 : dc * 2 ^ bm + m < 2 ^ (bd + bm) := field_pair_bound dc m bd bm hdc hm
  have hr2 : sq * 2 ^ (bd + bm) + (dc * 2 ^ bm + m) < 2 ^ (bs + (bd + bm)) :=
    field_pair_bound sq (dc * 2 ^ bm + m) bs (bd + bm) hsq hr1
  unfold DecomposedSnowflake.decompose
  rw [if_pos hsum]
  simp only [Option.some_inj]
  have htime : X >>> (bs + bd + bm) = t := by
    rw [Nat.shiftRight_eq_div_pow]
    have hXsplit : X = t * 2 ^ (bs + bd + bm) +
        (sq * 2 ^ (bd + bm) + (dc * 2 ^ bm + m)) := by rw [hX]; ring
    rw [hXsplit, split_div]
    rw [show bs + bd + bm = bs + (bd + bm) by omega]
    exact hr2
  have hmach : X &&& ((1 : Nat) <<< bm - 1) = m := by
    rw [and_one_shiftLeft_sub_one]
    have hXsplit : X = ((t * 2 ^ (bs + bd) + sq * 2 ^ bd + dc) * 2 ^ bm) + m := by
      rw [hX]; simp only [pow_add]; ring
    rw [hXsplit, split_mod _ _ _ hm]
  have hdcf : (X &&& (((1 : Nat) <<< bd - 1) <<< bm)) >>> bm = dc := by
    rw [and_shiftLeft_shiftRight, Nat.shiftRight_eq_div_pow]
    have hXsplit : X = ((t * 2 ^ (bs + bd) + sq * 2 ^ bd + dc) * 2 ^ bm) + m := by
      rw [hX]; simp only [pow_add]; ring
    rw [hXsplit, split_div _ _ _ hm, and_one_shiftLeft_sub_one]
    have hQsplit : t * 2 ^ (bs + bd) + sq * 2 ^ bd + dc =
        (t * 2 ^ bs + sq) * 2 ^ bd + dc := by simp only [pow_add]; ring
    rw [hQsplit, split_mod _ _ _ hdc]
  have hseqf : (X &&& (((1 : Nat) <<< bs - 1) <<< (bd + bm))) >>> (bd + bm) = sq := by
    rw [and_shiftLeft_shiftRight, Nat.shiftRight_eq_div_pow]
    have hXsplit : X = ((t * 2 ^ bs + sq) * 2 ^ (bd + bm)) + (dc * 2 ^ bm + m) := by
      rw [hX]; simp only [pow_add]; ring
    rw [hXsplit, split_div _ _ _ hr1, and_one_shiftLeft_sub_one,
      split_mod _ _ _ hsq]
  rw [htime, hmach, hdcf, hseqf]

/-! ## Structure of a `next_id` call -/

/-- The state after a `next_id` call is the tick/sequence update; it does not
depend on the time-limit check. -/
theorem next_id_internals (g : SharedSnowflake) (st : Internals)
    (current now_ns : Int) :
    (next_id g st current now_ns).internals =
      (next_id_update g st current now_ns).1 := by
  simp only [next_id]
  split <;> rfl

/-- The sleep reported by a `next_id` call is the one of the tick/sequence
update. -/
theorem next_id_slept (g : SharedSnowflake) (st : Internals)
    (current now_ns : Int) :
    (next_id g st current now_ns).slept =
      (next_id_update g st current now_ns).2 := by
  simp only [next_id]
  split <;> rfl

/-- The result of a `next_id` call, as a function of the updated state: the
time-limit error exactly when the updated `elapsed_time` has reached the
(two's-complement) `i64` bound `1 << bit_len_time`, the packed ID
otherwise. -/
theorem next_id_result_eq (g : SharedSnowflake) (st : Internals)
    (current now_ns : Int) :
    (next_id g st current now_ns).result =
      if toInt64 ((1 : Nat) <<< (g.bit_len_time % 64)) ≤
          (next_id_update g st current now_ns).1.elapsed_time
      then .error .OverTimeLimit
      else .ok (pack_id g (next_id_update g st current now_ns).1) := by
  simp only [next_id]
  split <;> rename_i h <;> simp [h]

/-- `elapsed_time` never decreases across the tick/sequence update. -/
theorem next_id_update_elapsed_mono (g : SharedSnowflake) (st : Internals)
    (current now_ns : Int) :
    st.elapsed_time ≤ (next_id_update g st current now_ns).1.elapsed_time := by
  unfold next_id_update
  by_cases h1 : st.elapsed_time < current
  · simp only [h1, if_true]
    exact le_of_lt h1
  · simp only [h1, if_false]
    split <;> simp

/-- `elapsed_time` never decreases across a `next_id` call, successful or
failed. -/
theorem next_id_elapsed_mono (g : SharedSnowflake) (st : Internals)
    (current now_ns : Int) :
    st.elapsed_time ≤ (next_id g st current now_ns).internals.elapsed_time := by
  rw [next_id_internals]
  exact next_id_update_elapsed_mono g st current now_ns

/-! ## Claims about decomposition: C1, C5, C10 -/

/-- C1: for every bit-width layout summing to 63 (including layouts with a
zero-width data-center segment) and every tuple of field values each below
its segment width, `DecomposedSnowflake::decompose` applied to the ID
assembled by `next_id`'s packing recovers exactly the original four field
values. -/
theorem decompose_inverts_next_id_pack (bt bs bd bm t sq dc m : Nat)
    (hsum : bt + bs + bd + bm = 63)
    (ht : t < 2 ^ bt) (hsq : sq < 2 ^ bs) (hdc : dc < 2 ^ bd) (hm : m < 2 ^ bm) :
    DecomposedSnowflake.decompose
        (pack_id ⟨0, dc, m, bt, bs, bd, bm⟩ ⟨(t : Int), sq⟩) bt bs bd bm =
      some ⟨pack_id ⟨0, dc, m, bt, bs, bd, bm⟩ ⟨(t : Int), sq⟩, t, sq, dc, m⟩ := by
  have hp : pack_id ⟨0, dc, m, bt, bs, bd, bm⟩ ⟨(t : Int), sq⟩ =
      t * 2 ^ (bs + bd + bm) + sq * 2 ^ (bd + bm) + dc * 2 ^ bm + m := by
    have h := pack_id_eq ⟨0, dc, m, bt, bs, bd, bm⟩ ⟨(t : Int), sq⟩ hsum
      (Int.natCast_nonneg t)
      (by show (t : Int) < (2 : Int) ^ bt; exact_mod_cast ht) hsq hdc hm
    simpa using h
  rw [hp]
  exact decompose_sum_eq bt bs bd bm t sq dc m hsum ht hsq hdc hm

/-- Witness for C1 at the data-center-free layout 41/12/0/10 with fields
(5, 3, 0, 7). -/
theorem decompose_inverts_next_id_pack_witness :
    DecomposedSnowflake.decompose
        (pack_id ⟨0, 0, 7, 41, 12, 0, 10⟩ ⟨(5 : Int), 3⟩) 41 12 0 10 =
      some ⟨pack_id ⟨0, 0, 7, 41, 12, 0, 10⟩ ⟨(5 : Int), 3⟩, 5, 3, 0, 7⟩ :=
  decompose_inverts_next_id_pack 41 12 0 10 5 3 0 7 (by norm_num)
    (by norm_num) (by norm_num) (by norm_num) (by norm_num)

/-- C5 (amended): the layout-parameterised `DecomposedSnowflake::decompose`
derives its masks and shifts purely from the supplied layout, but the crate
additionally exposes the free function `decompose(id)` whose widths are the
hidden crate-level constants 39/8/8/8: on every ID it coincides with the
layout-parameterised decomposition at exactly that baked-in layout. -/
theorem free_decompose_uses_baked_constants (id : Nat) :
    DecomposedSnowflake.decompose id BIT_LEN_TIME BIT_LEN_SEQUENCE
        BIT_LEN_DATA_CENTER_ID BIT_LEN_MACHINE_ID = some (decompose id) := by
  simp only [DecomposedSnowflake.decompose, decompose, BIT_LEN_TIME,
    BIT_LEN_SEQUENCE, BIT_LEN_DATA_CENTER_ID, BIT_LEN_MACHINE_ID,
    DECOMPOSE_MASK_SEQUENCE, MASK_DATA_CENTER_ID, MASK_MACHINE_ID]
  norm_num

/-- Counterexample to C5 as stated: the crate exposes a decomposition
operation (the free `decompose`) that takes no layout from the caller; its
fields come from the baked-in widths 39/8/8/8 and differ from the
layout-derived fields at the builder's default layout 41/12/5/5, on
the ID 256. -/
theorem free_decompose_ignores_caller_layout :
    decompose 256 = ⟨256, 0, 0, 1, 0⟩ ∧
      DecomposedSnowflake.decompose 256 41 12 5 5 = some ⟨256, 0, 0, 8, 0⟩ ∧
      (1 : Nat) ≠ 8 := by
  refine ⟨?_, ?_, by norm_num⟩ <;> decide

/-- C10: `DecomposedSnowflake::decompose` is guarded by an assertion (the
abort is modelled as `none`): it returns a decomposition exactly when the
four supplied widths sum to 63, and aborts (never reports an error value)
otherwise. -/
theorem decompose_guarded_by_assert (id bt bs bd bm : Nat) :
    (DecomposedSnowflake.decompose id bt bs bd bm).isSome =
      decide (bt + bs + bd + bm = 63) := by
  unfold DecomposedSnowflake.decompose
  by_cases h : bt + bs + bd + bm = 63
  · simp [h]
  · simp [h]

/-- C3 (amended): for `bit_len_sequence` below 16 (so that the `u16` mask
computation `1 << bit_len_sequence` does not overflow) and a stored sequence
inside its width, each `next_id` call updates the generator state exactly as
the spec's state machine prescribes: a strictly newer tick resets the
sequence and adopts the tick, otherwise the sequence increments modulo
`2 ^ bit_len_sequence` and a wrap to 0 advances `elapsed_time` by exactly 1;
and `elapsed_time` never decreases across calls, successful or failed. -/
theorem next_id_follows_spec_state_machine (g : SharedSnowflake)
    (st : Internals) (current now_ns : Int) (hbs : g.bit_len_sequence < 16)
    (hseq : st.sequence < 2 ^ g.bit_len_sequence) :
    (next_id g st current now_ns).internals =
        spec_state_update g.bit_len_sequence st current ∧
      st.elapsed_time ≤ (next_id g st current now_ns).internals.elapsed_time := by
  refine ⟨?_, next_id_elapsed_mono g st current now_ns⟩
  rw [next_id_internals]
  unfold next_id_update spec_state_update
  by_cases h1 : st.elapsed_time < current
  · simp [h1]
  · simp only [h1, if_false]
    have hmask : u16shl 1 g.bit_len_sequence - 1 = 2 ^ g.bit_len_sequence - 1 := by
      rw [u16shl_one _ hbs]
    have h15 : (2 : Nat) ^ g.bit_len_sequence ≤ 2 ^ 15 :=
      Nat.pow_le_pow_right (by norm_num) (by omega)
    have hseq1 : (st.sequence + 1) % 2 ^ 16 = st.sequence + 1 := by
      apply Nat.mod_eq_of_lt
      have h16 : (2 : Nat) ^ 15 = 32768 := by norm_num
      have h17 : (2 : Nat) ^ 16 = 65536 := by norm_num
      omega
    have hand : (st.sequence + 1) &&& (2 ^ g.bit_len_sequence - 1) =
        (st.sequence + 1) % 2 ^ g.bit_len_sequence :=
      Nat.and_pow_two_sub_one_eq_mod _ _
    rw [hmask, hseq1, hand]
    by_cases h2 : (st.sequence + 1) % 2 ^ g.bit_len_sequence = 0
    · simp [h2]
    · simp [h2]

/-- Witness for C3 (amended) at the default layout, state `(0, 0)`, current
tick 1. -/
theorem next_id_follows_spec_state_machine_witness :
    (next_id ⟨0, 0, 0, 41, 12, 5, 5⟩ ⟨0, 0⟩ 1 0).internals =
        spec_state_update 12 ⟨0, 0⟩ 1 ∧
      (0 : Int) ≤ (next_id ⟨0, 0, 0, 41, 12, 5, 5⟩ ⟨0, 0⟩ 1 0).internals.elapsed_time :=
  next_id_follows_spec_state_machine ⟨0, 0, 0, 41, 12, 5, 5⟩ ⟨0, 0⟩ 1 0
    (by norm_num) (by norm_num)

/-- Counterexample to C3 as stated: with the `finalize`-accepted widths
46/16/1/0 the sequence width is 16, the release-build `u16` mask
`(1 << 16) - 1` collapses to 0 (a debug build aborts instead), and from
state `(0, 5)` at current tick 0 the code zeroes the sequence and advances
`elapsed_time`, where the claimed update `(sequence + 1) mod 2 ^ 16` would
store sequence 6 and keep `elapsed_time` at 0. -/
theorem next_id_state_update_counterexample :
    (next_id ⟨0, 0, 0, 46, 16, 1, 0⟩ ⟨0, 5⟩ 0 0).internals = ⟨1, 0⟩ ∧
      spec_state_update 16 ⟨0, 5⟩ 0 = ⟨0, 6⟩ := by
  constructor <;> decide

/-- C4 (amended): for `bit_len_time` at most 62, `next_id` fails with the
time-limit error exactly when the updated `elapsed_time` has reached
`2 ^ bit_len_time`; that condition is absorbing, so once a call has failed
every subsequent call on the same generator fails the same way. (At
`bit_len_time = 63` the `i64` bound `1 << 63` wraps to a negative value and
every call fails even below `2 ^ 63`.) -/
theorem next_id_over_time_limit (g : SharedSnowflake) (st : Internals)
    (current now_ns current2 now_ns2 : Int) (hbt : g.bit_len_time ≤ 62) :
    ((next_id g st current now_ns).result = .error .OverTimeLimit ↔
        (2 : Int) ^ g.bit_len_time ≤
          (next_id g st current now_ns).internals.elapsed_time) ∧
      ((2 : Int) ^ g.bit_len_time ≤
          (next_id g st current now_ns).internals.elapsed_time →
        (next_id g (next_id g st current now_ns).internals current2
              now_ns2).result = .error .OverTimeLimit ∧
          (2 : Int) ^ g.bit_len_time ≤
            (next_id g (next_id g st current now_ns).internals current2
              now_ns2).internals.elapsed_time) := by
  have hmod : g.bit_len_time % 64 = g.bit_len_time := Nat.mod_eq_of_lt (by omega)
  have hbound : toInt64 ((1 : Nat) <<< (g.bit_len_time % 64)) =
      2 ^ g.bit_len_time := by
    rw [hmod]
    exact toInt64_one_shl _ hbt
  have herr : ∀ st2 c n, ((next_id g st2 c n).result = .error .OverTimeLimit ↔
      (2 : Int) ^ g.bit_len_time ≤ (next_id g st2 c n).internals.elapsed_time) := by
    intro st2 c n
    rw [next_id_result_eq, next_id_internals, hbound]
    by_cases h : (2 : Int) ^ g.bit_len_time ≤
        (next_id_update g st2 c n).1.elapsed_time
    · simp [h]
    · simp [h]
  refine ⟨herr st current now_ns, fun h => ?_⟩
  have hmono := next_id_elapsed_mono g (next_id g st current now_ns).internals
    current2 now_ns2
  have h2 : (2 : Int) ^ g.bit_len_time ≤
      (next_id g (next_id g st current now_ns).internals current2
        now_ns2).internals.elapsed_time := le_trans h hmono
  exact ⟨(herr _ _ _).mpr h2, h2⟩

/-- Witness for C4 (amended) at the default layout from an exhausted state
(`elapsed_time = 2 ^ 41`): the first call fails and so does the next. -/
theorem next_id_over_time_limit_witness :
    ((next_id ⟨0, 0, 0, 41, 12, 5, 5⟩ ⟨2199023255552, 0⟩ 0 0).result =
          .error .OverTimeLimit ↔
        (2 : Int) ^ 41 ≤
          (next_id ⟨0, 0, 0, 41, 12, 5, 5⟩ ⟨2199023255552, 0⟩ 0 0).internals.elapsed_time) ∧
      ((2 : Int) ^ 41 ≤
          (next_id ⟨0, 0, 0, 41, 12, 5, 5⟩ ⟨2199023255552, 0⟩ 0 0).internals.elapsed_time →
        (next_id ⟨0, 0, 0, 41, 12, 5, 5⟩
              (next_id ⟨0, 0, 0, 41, 12, 5, 5⟩ ⟨2199023255552, 0⟩ 0 0).internals
              0 0).result = .error .OverTimeLimit ∧
          (2 : Int) ^ 41 ≤
            (next_id ⟨0, 0, 0, 41, 12, 5, 5⟩
              (next_id ⟨0, 0, 0, 41, 12, 5, 5⟩ ⟨2199023255552, 0⟩ 0 0).internals
              0 0).internals.elapsed_time) :=
  next_id_over_time_limit ⟨0, 0, 0, 41, 12, 5, 5⟩ ⟨2199023255552, 0⟩ 0 0 0 0
    (by norm_num)

/-- Counterexample to C4 as stated: with the constructible width layout
63/0/0/0 the `i64` bound `1 << 63` is `i64::MIN`, so a call whose updated
`elapsed_time` is 1 — far below `2 ^ 63` — still fails with the time-limit
error, where the claim predicts success. -/
theorem next_id_over_time_limit_counterexample :
    (next_id ⟨0, 0, 0, 63, 0, 0, 0⟩ ⟨0, 0⟩ 1 0).result =
        .error .OverTimeLimit ∧
      (next_id ⟨0, 0, 0, 63, 0, 0, 0⟩ ⟨0, 0⟩ 1 0).internals.elapsed_time = 1 ∧
      (1 : Int) < 2 ^ 63 := by
  refine ⟨?_, ?_, by norm_num⟩ <;> decide

/-! ## Invariants and ordering of the state machine -/

theorem u16shl_one_eq (k : Nat) : u16shl 1 k = 2 ^ (k % 16) := by
  unfold u16shl
  rw [one_shiftLeft_eq]
  exact Nat.mod_eq_of_lt (Nat.pow_lt_pow_right (by norm_num)
    (Nat.mod_lt _ (by norm_num)))

/-- The sequence width actually in effect after the `u16` shift masking. -/
theorem seq_width_le (bs : Nat) : (2 : Nat) ^ (bs % 16) ≤ 2 ^ bs :=
  Nat.pow_le_pow_right (by norm_num) (Nat.mod_le _ _)

theorem two_pow_mod16_le_u16 (bs : Nat) : (2 : Nat) ^ (bs % 16) ≤ 2 ^ 15 :=
  Nat.pow_le_pow_right (by norm_num) (by omega)

/-- `StateInv` is preserved by every `next_id` call. -/
theorem next_id_preserves_StateInv (g : SharedSnowflake) (st : Internals)
    (current now_ns : Int) (h : StateInv g st) :
    StateInv g (next_id g st current now_ns).internals := by
  obtain ⟨h0, hs⟩ := h
  rw [next_id_internals]
  unfold next_id_update
  by_cases h1 : st.elapsed_time < current
  · simp only [h1, if_true]
    exact ⟨le_of_lt (lt_of_le_of_lt h0 h1), Nat.pos_pow_of_pos _ (by norm_num)⟩
  · simp only [h1, if_false]
    have hmask : ∀ x : Nat, x &&& (u16shl 1 g.bit_len_sequence - 1) <
        2 ^ (g.bit_len_sequence % 16) := by
      intro x
      rw [u16shl_one_eq, Nat.and_pow_two_sub_one_eq_mod]
      exact Nat.mod_lt _ (Nat.pos_pow_of_pos _ (by norm_num))
    split
    · refine ⟨?_, hmask _⟩
      show 0 ≤ st.elapsed_time + 1
      omega
    · exact ⟨h0, hmask _⟩

/-- Every `next_id` call strictly increases the state lexicographically:
either `elapsed_time` grows, or it stays and the sequence grows. -/
theorem next_id_update_lex (g : SharedSnowflake) (st : Internals)
    (current now_ns : Int) (h : StateInv g st) :
    st.elapsed_time < (next_id g st current now_ns).internals.elapsed_time ∨
      (st.elapsed_time = (next_id g st current now_ns).internals.elapsed_time ∧
        st.sequence < (next_id g st current now_ns).internals.sequence) := by
  obtain ⟨h0, hs⟩ := h
  rw [next_id_internals]
  unfold next_id_update
  by_cases h1 : st.elapsed_time < current
  · simp only [if_pos h1]
    exact Or.inl h1
  · simp only [if_neg h1]
    have h15 := two_pow_mod16_le_u16 g.bit_len_sequence
    have hseq1 : (st.sequence + 1) % 2 ^ 16 = st.sequence + 1 := by
      apply Nat.mod_eq_of_lt
      have h16 : (2 : Nat) ^ 15 = 32768 := by norm_num
      have h17 : (2 : Nat) ^ 16 = 65536 := by norm_num
      omega
    have hand : (st.sequence + 1) % 2 ^ 16 &&& (u16shl 1 g.bit_len_sequence - 1) =
        (st.sequence + 1) % 2 ^ (g.bit_len_sequence % 16) := by
      rw [hseq1, u16shl_one_eq, Nat.and_pow_two_sub_one_eq_mod]
    rw [hand]
    by_cases h2 : (st.sequence + 1) % 2 ^ (g.bit_len_sequence % 16) = 0
    · simp only [if_pos h2]
      refine Or.inl ?_
      show st.elapsed_time < st.elapsed_time + 1
      omega
    · simp only [if_neg h2]
      refine Or.inr ⟨by simp, ?_⟩
      show st.sequence < (st.sequence + 1) % 2 ^ (g.bit_len_sequence % 16)
      have hle : st.sequence + 1 ≤ 2 ^ (g.bit_len_sequence % 16) := hs
      rcases Nat.lt_or_ge (st.sequence + 1) (2 ^ (g.bit_len_sequence % 16)) with hlt | hge
      · rw [Nat.mod_eq_of_lt hlt]
        omega
      · have heq : st.sequence + 1 = 2 ^ (g.bit_len_sequence % 16) := by omega
        rw [heq, Nat.mod_self] at h2
        exact absurd rfl h2

/-- The `i64` time bound at width 63 is `i64::MIN`, a negative number. -/
theorem toInt64_one_shl_63 : toInt64 ((1 : Nat) <<< 63) = -(2 ^ 63) := by decide

/-- A successful `next_id` call returns the packing of the updated state, and
that state's `elapsed_time` is below `2 ^ bit_len_time`. -/
theorem next_id_ok_facts (g : SharedSnowflake) (st : Internals)
    (current now_ns : Int) (id : Nat) (hc : ConfigInv g) (hst : StateInv g st)
    (h : (next_id g st current now_ns).result = .ok id) :
    id = pack_id g (next_id g st current now_ns).internals ∧
      (next_id g st current now_ns).internals.elapsed_time <
        (2 : Int) ^ g.bit_len_time := by
  have hres := next_id_result_eq g st current now_ns
  rw [h] at hres
  by_cases hcond : toInt64 ((1 : Nat) <<< (g.bit_len_time % 64)) ≤
      (next_id_update g st current now_ns).1.elapsed_time
  · rw [if_pos hcond] at hres
    exact absurd hres (by simp)
  · rw [if_neg hcond] at hres
    have hid : id = pack_id g (next_id_update g st current now_ns).1 := by
      injection hres
    have h0 : 0 ≤ (next_id g st current now_ns).internals.elapsed_time :=
      (next_id_preserves_StateInv g st current now_ns hst).1
    rw [next_id_internals] at h0 ⊢
    refine ⟨hid, ?_⟩
    have hbt : g.bit_len_time ≤ 63 := by
      obtain ⟨hsum, _, _⟩ := hc
      omega
    rcases Nat.lt_or_ge g.bit_len_time 63 with hlt | hge
    · have hmod : g.bit_len_time % 64 = g.bit_len_time := Nat.mod_eq_of_lt (by omega)
      rw [hmod, toInt64_one_shl _ (by omega)] at hcond
      omega
    · have h63 : g.bit_len_time = 63 := by omega
      rw [h63] at hcond
      rw [show (63 : Nat) % 64 = 63 from rfl, toInt64_one_shl_63] at hcond
      exfalso
      have : (0 : Int) ≤ (next_id_update g st current now_ns).1.elapsed_time := h0
      omega

/-- Packing is strictly monotone in the lexicographic order on
`(elapsed_time, sequence)`, for states inside the layout's widths. -/
theorem pack_id_strict_mono (g : SharedSnowflake) (st1 st2 : Internals)
    (hc : ConfigInv g) (h1 : StateInv g st1) (h2 : StateInv g st2)
    (hb1 : st1.elapsed_time < (2 : Int) ^ g.bit_len_time)
    (hb2 : st2.elapsed_time < (2 : Int) ^ g.bit_len_time)
    (hlex : st1.elapsed_time < st2.elapsed_time ∨
      (st1.elapsed_time = st2.elapsed_time ∧ st1.sequence < st2.sequence)) :
    pack_id g st1 < pack_id g st2 := by
  obtain ⟨hsum, hdc, hm⟩ := hc
  have hs1 : st1.sequence < 2 ^ g.bit_len_sequence :=
    lt_of_lt_of_le h1.2 (seq_width_le _)
  have hs2 : st2.sequence < 2 ^ g.bit_len_sequence :=
    lt_of_lt_of_le h2.2 (seq_width_le _)
  rw [pack_id_eq g st1 hsum h1.1 hb1 hs1 hdc hm,
    pack_id_eq g st2 hsum h2.1 hb2 hs2 hdc hm]
  set bs := g.bit_len_sequence
  set bd := g.bit_len_data_center_id
  set bm := g.bit_len_machine_id
  set t1 := st1.elapsed_time.toNat with ht1
  set t2 := st2.elapsed_time.toNat with ht2
  have hu : t1 * 2 ^ bs + st1.sequence < t2 * 2 ^ bs + st2.sequence := by
    rcases hlex with hlt | ⟨heq, hslt⟩
    · have htn : t1 < t2 := by omega
      calc t1 * 2 ^ bs + st1.sequence < t1 * 2 ^ bs + 2 ^ bs := by omega
        _ = (t1 + 1) * 2 ^ bs := by ring
        _ ≤ t2 * 2 ^ bs := Nat.mul_le_mul_right _ (by omega)
        _ ≤ t2 * 2 ^ bs + st2.sequence := Nat.le_add_right _ _
    · have htn : t1 = t2 := by omega
      rw [htn]
      omega
  have e1 : t1 * 2 ^ (bs + bd + bm) + st1.sequence * 2 ^ (bd + bm) +
      g.data_center_id * 2 ^ bm + g.machine_id =
      (t1 * 2 ^ bs + st1.sequence) * 2 ^ (bd + bm) +
        (g.data_center_id * 2 ^ bm + g.machine_id) := by
    simp only [pow_add]
    ring
  have e2 : t2 * 2 ^ (bs + bd + bm) + st2.sequence * 2 ^ (bd + bm) +
      g.data_center_id * 2 ^ bm + g.machine_id =
      (t2 * 2 ^ bs + st2.sequence) * 2 ^ (bd + bm) +
        (g.data_center_id * 2 ^ bm + g.machine_id) := by
    simp only [pow_add]
    ring
  rw [e1, e2]
  exact Nat.add_lt_add_right
    ((Nat.mul_lt_mul_right (Nat.pos_pow_of_pos _ (by norm_num))).mpr hu) _

/-- C6 (amended): `finalize` fails with the invalid-bit-length configuration
error whenever the widths' `u8` sum — which wraps modulo 256 — differs from
63, and no generator is constructed from such widths. (Width quadruples
whose mathematical sum is not 63 but wraps to 63 modulo 256 pass the check
and can construct a generator.) -/
theorem finalize_rejects_bad_width_sum (b : Builder) (now_ns : Int)
    (h : (b.bit_len_time + b.bit_len_sequence + b.bit_len_data_center_id +
      b.bit_len_machine_id) % 256 ≠ 63) :
    Builder.finalize b now_ns = .error (.InvalidBitLength b.bit_len_time
      b.bit_len_sequence b.bit_len_data_center_id b.bit_len_machine_id) := by
  unfold Builder.finalize
  rw [if_pos h]

/-- Witness for C6 (amended) at widths 41/12/5/6 (sum 64). -/
theorem finalize_rejects_bad_width_sum_witness :
    Builder.finalize ⟨none, none, none, none, none, 41, 12, 5, 6⟩ 0 =
      .error (.InvalidBitLength 41 12 5 6) :=
  finalize_rejects_bad_width_sum ⟨none, none, none, none, none, 41, 12, 5, 6⟩ 0
    (by norm_num)

/-- Counterexample to C6 as stated: the widths 200/60/30/29 sum to 319, not
63, yet their `u8` sum wraps to 63 modulo 256, so `finalize` does not return
the invalid-bit-length error and constructs a generator from them. -/
theorem finalize_accepts_wrapped_width_sum :
    Builder.finalize ⟨none, some (.ok 0), some (.ok 0), none, none,
        200, 60, 30, 29⟩ 0 =
      .ok ⟨1640995200000, 0, 0, 200, 60, 30, 29⟩ ∧
      200 + 60 + 30 + 29 ≠ 63 := by
  constructor <;> decide

/-- C9 (amended): the arithmetic of `next_id` is overflow-free whenever
`bit_len_sequence` is below 16 and `bit_len_time` is at most 62 (the default
41/12/5/5 layout satisfies both): the checked `u16` mask shift and the
checked `i64` time bound both succeed and agree with the release-build
values `next_id` uses. `finalize` imposes no such per-width bounds, and
outside them the shifts overflow. -/
theorem next_id_shift_overflow_free (bs bt : Nat) (hbs : bs < 16)
    (hbt : bt ≤ 62) :
    u16_shl_checked 1 bs = some (u16shl 1 bs) ∧
      i64_one_shl_checked bt = some (toInt64 ((1 : Nat) <<< (bt % 64))) := by
  constructor
  · unfold u16_shl_checked u16shl
    rw [if_pos hbs, Nat.mod_eq_of_lt hbs]
  · have hlt : (1 : Nat) <<< bt < 2 ^ 63 := by
      rw [one_shiftLeft_eq]
      exact Nat.pow_lt_pow_right (by norm_num) (by omega)
    unfold i64_one_shl_checked
    rw [if_pos ⟨by omega, hlt⟩]
    have hmod : bt % 64 = bt := Nat.mod_eq_of_lt (by omega)
    rw [hmod, toInt64_one_shl bt hbt, one_shiftLeft_eq]
    norm_cast

/-- Witness for C9 (amended) at the default widths 12 and 41. -/
theorem next_id_shift_overflow_free_witness :
    u16_shl_checked 1 12 = some (u16shl 1 12) ∧
      i64_one_shl_checked 41 = some (toInt64 ((1 : Nat) <<< (41 % 64))) :=
  next_id_shift_overflow_free 12 41 (by norm_num) (by norm_num)

/-- Counterexample to C9 as stated: `finalize` accepts the widths 46/16/1/0,
for which the `u16` sequence-mask shift `1 << 16` overflows, and the widths
63/0/0/0, for which the `i64` time bound `1 << 63` exceeds the largest
`i64`. -/
theorem next_id_shift_overflow_counterexample :
    Builder.finalize ⟨none, some (.ok 0), some (.ok 0), none, none,
        46, 16, 1, 0⟩ 0 = .ok ⟨1640995200000, 0, 0, 46, 16, 1, 0⟩ ∧
      u16_shl_checked 1 16 = none ∧
      Builder.finalize ⟨none, some (.ok 0), some (.ok 0), none, none,
        63, 0, 0, 0⟩ 0 = .ok ⟨1640995200000, 0, 0, 63, 0, 0, 0⟩ ∧
      i64_one_shl_checked 63 = none := by
  refine ⟨?_, ?_, ?_, ?_⟩ <;> decide

/-- C2: on a single generator instance with a validated configuration,
whenever two successful `next_id` calls happen one after the other, the
second returned ID is strictly greater than the first (hence N successive
successful calls return strictly increasing values). -/
theorem next_id_strictly_increasing (g : SharedSnowflake) (st : Internals)
    (current1 now1 current2 now2 : Int) (id1 id2 : Nat)
    (hc : ConfigInv g) (hst : StateInv g st)
    (h1 : (next_id g st current1 now1).result = .ok id1)
    (h2 : (next_id g (next_id g st current1 now1).internals current2
      now2).result = .ok id2) :
    id1 < id2 := by
  have hst1 : StateInv g (next_id g st current1 now1).internals :=
    next_id_preserves_StateInv g st current1 now1 hst
  have hst2 : StateInv g (next_id g (next_id g st current1 now1).internals
      current2 now2).internals :=
    next_id_preserves_StateInv g _ current2 now2 hst1
  obtain ⟨hid1, hb1⟩ := next_id_ok_facts g st current1 now1 id1 hc hst h1
  obtain ⟨hid2, hb2⟩ := next_id_ok_facts g _ current2 now2 id2 hc hst1 h2
  have hlex := next_id_update_lex g (next_id g st current1 now1).internals
    current2 now2 hst1
  rw [hid1, hid2]
  exact pack_id_strict_mono g _ _ hc hst1 hst2 hb1 hb2 hlex

/-- Witness for C2: two successive successful calls at the default layout
with identities (5, 10) return 4194474 and then 4195498. -/
theorem next_id_strictly_increasing_witness :
    (next_id ⟨0, 5, 10, 41, 12, 5, 5⟩ ⟨0, 0⟩ 1 0).result = .ok 4194474 ∧
      (next_id ⟨0, 5, 10, 41, 12, 5, 5⟩
          (next_id ⟨0, 5, 10, 41, 12, 5, 5⟩ ⟨0, 0⟩ 1 0).internals 1 0).result =
        .ok 4195498 ∧
      (4194474 : Nat) < 4195498 :=
  ⟨by decide, by decide,
    next_id_strictly_increasing ⟨0, 5, 10, 41, 12, 5, 5⟩ ⟨0, 0⟩ 1 0 1 0
      4194474 4195498 (by decide) (by decide) (by decide) (by decide)⟩

/-- C7 (amended): whenever `next_id` takes the sequence-exhaustion branch
from a state that has not outrun the clock (`elapsed_time = current`, the
steady-state case), the slept duration subtracts the already-elapsed portion
of the current tick from one full tick, is positive, and is at most one tick
unit (1 ms). Under the backward-jump ratchet (`elapsed_time > current`) the
computed sleep is `(elapsed_time + 1 - current)` ticks minus that portion
and can exceed one tick. -/
theorem next_id_sleep_bounded (g : SharedSnowflake) (st : Internals)
    (current now_ns : Int)
    (heq : st.elapsed_time = current) (hnow : 0 ≤ now_ns)
    (hwrap : ((st.sequence + 1) % 2 ^ 16) &&&
      (u16shl 1 g.bit_len_sequence - 1) = 0) :
    (next_id g st current now_ns).slept = some (sleep_time 1 now_ns) ∧
      sleep_time 1 now_ns =
        SNOWFLAKE_TIME_UNIT - Int.tmod now_ns SNOWFLAKE_TIME_UNIT ∧
      0 < sleep_time 1 now_ns ∧
      sleep_time 1 now_ns ≤ SNOWFLAKE_TIME_UNIT := by
  have h1 : ¬ st.elapsed_time < current := by omega
  have hov : st.elapsed_time + 1 - current = 1 := by omega
  have hfrac0 : 0 ≤ Int.tmod now_ns SNOWFLAKE_TIME_UNIT :=
    Int.tmod_nonneg _ hnow
  have hfraclt : Int.tmod now_ns SNOWFLAKE_TIME_UNIT < SNOWFLAKE_TIME_UNIT :=
    Int.tmod_lt_of_pos now_ns (by norm_num [SNOWFLAKE_TIME_UNIT])
  have hupd : (next_id_update g st current now_ns).2 =
      some (sleep_time (st.elapsed_time + 1 - current) now_ns) := by
    unfold next_id_update
    simp only [if_neg h1, if_pos hwrap]
  have hsl : sleep_time 1 now_ns =
      SNOWFLAKE_TIME_UNIT - Int.tmod now_ns SNOWFLAKE_TIME_UNIT := by
    unfold sleep_time
    rw [intToU64_of_nonneg 1 (by norm_num) (by norm_num),
      intToU64_of_nonneg _ hfrac0
        (lt_trans hfraclt (by norm_num [SNOWFLAKE_TIME_UNIT])),
      Int.toNat_of_nonneg hfrac0]
    norm_num
  have hunit : SNOWFLAKE_TIME_UNIT = 1000000 := rfl
  refine ⟨?_, hsl, ?_, ?_⟩
  · rw [next_id_slept, hupd, hov]
  · rw [hsl]
    omega
  · rw [hsl]
    omega

/-- Witness for C7 (amended): layout 60/1/1/1, state `(5, 1)` at current
tick 5 with 300 ns of the tick already elapsed. -/
theorem next_id_sleep_bounded_witness :
    (next_id ⟨0, 0, 0, 60, 1, 1, 1⟩ ⟨5, 1⟩ 5 300).slept =
        some (sleep_time 1 300) ∧
      sleep_time 1 300 =
        SNOWFLAKE_TIME_UNIT - Int.tmod 300 SNOWFLAKE_TIME_UNIT ∧
      0 < sleep_time 1 300 ∧
      sleep_time 1 300 ≤ SNOWFLAKE_TIME_UNIT :=
  next_id_sleep_bounded ⟨0, 0, 0, 60, 1, 1, 1⟩ ⟨5, 1⟩ 5 300 (by decide)
    (by decide) (by decide)

/-- Counterexample to C7 as stated: under a backward clock jump the ratchet
leaves `elapsed_time` ahead of the clock, and the sequence-exhaustion sleep
then exceeds one tick. Layout 60/1/1/1, starting from the zeroed state: a
call at tick 5 stores `elapsed_time = 5`; the clock jumps back to tick 0 and
two more calls exhaust the 1-bit sequence; the third call sleeps 6 000 000
ns — six tick units, not at most one. -/
theorem next_id_sleep_exceeds_one_tick :
    (next_id ⟨0, 0, 0, 60, 1, 1, 1⟩ ⟨0, 0⟩ 5 0).internals = ⟨5, 0⟩ ∧
      (next_id ⟨0, 0, 0, 60, 1, 1, 1⟩ ⟨5, 0⟩ 0 0).internals = ⟨5, 1⟩ ∧
      (next_id ⟨0, 0, 0, 60, 1, 1, 1⟩ ⟨5, 1⟩ 0 0).slept = some 6000000 ∧
      (1000000 : Int) < 6000000 := by
  refine ⟨?_, ?_, ?_, by norm_num⟩ <;> decide

/-- Any serialised run of `next_id` calls yields ids that are packings of
valid states strictly above the starting state in the lexicographic order,
and the successful ids are strictly increasing. -/
theorem run_calls_ordered (g : SharedSnowflake) (hc : ConfigInv g) :
    ∀ (inputs : List (Int × Int)) (st : Internals), StateInv g st →
      (∀ x ∈ (run_calls g st inputs).2, ∃ s2 : Internals, StateInv g s2 ∧
          s2.elapsed_time < (2 : Int) ^ g.bit_len_time ∧ x = pack_id g s2 ∧
          (st.elapsed_time < s2.elapsed_time ∨
            (st.elapsed_time = s2.elapsed_time ∧ st.sequence < s2.sequence))) ∧
        List.Pairwise (· < ·) (run_calls g st inputs).2 := by
  intro inputs
  induction inputs with
  | nil =>
    intro st hst
    constructor
    · intro x hx
      simp [run_calls] at hx
    · simp [run_calls]
  | cons p rest ih =>
    obtain ⟨current, now_ns⟩ := p
    intro st hst
    have hst1 : StateInv g (next_id g st current now_ns).internals :=
      next_id_preserves_StateInv g st current now_ns hst
    have hlex1 := next_id_update_lex g st current now_ns hst
    obtain ⟨ihA, ihB⟩ := ih (next_id g st current now_ns).internals hst1
    cases hres : (next_id g st current now_ns).result with
    | error e =>
      simp only [run_calls, hres]
      refine ⟨?_, ihB⟩
      intro x hx
      obtain ⟨s2, hs2inv, hs2b, hs2eq, hs2lex⟩ := ihA x hx
      exact ⟨s2, hs2inv, hs2b, hs2eq, by rcases hlex1 with h | h <;>
        rcases hs2lex with h2 | h2 <;> [left; left; left; right] <;> omega⟩
    | ok id =>
      simp only [run_calls, hres]
      obtain ⟨hid, hb1⟩ := next_id_ok_facts g st current now_ns id hc hst hres
      constructor
      · intro x hx
        rcases List.mem_cons.mp hx with hxid | hxrest
        · exact ⟨(next_id g st current now_ns).internals, hst1, hb1,
            hxid ▸ hid, hlex1⟩
        · obtain ⟨s2, hs2inv, hs2b, hs2eq, hs2lex⟩ := ihA x hxrest
          exact ⟨s2, hs2inv, hs2b, hs2eq, by rcases hlex1 with h | h <;>
            rcases hs2lex with h2 | h2 <;> [left; left; left; right] <;> omega⟩
      · refine List.Pairwise.cons ?_ ihB
        intro x hxrest
        obtain ⟨s2, hs2inv, hs2b, hs2eq, hs2lex⟩ := ihA x hxrest
        rw [hid, hs2eq]
        exact pack_id_strict_mono g _ s2 hc hst1 hs2inv hb1 hs2b hs2lex

/-- C8: the mutex serialises the critical section of `next_id`, so any
interleaving of T threads each calling K times executes as some serialised
sequence of T*K calls on the shared state; for every serialised run from a
valid state, the returned values are strictly increasing and pairwise
distinct — with every call successful, the union of returned values has
exactly T*K distinct elements. -/
theorem run_calls_all_distinct (g : SharedSnowflake) (st : Internals)
    (inputs : List (Int × Int)) (hc : ConfigInv g) (hst : StateInv g st) :
    List.Pairwise (· < ·) (run_calls g st inputs).2 ∧
      (run_calls g st inputs).2.Nodup := by
  have h := (run_calls_ordered g hc inputs st hst).2
  exact ⟨h, h.imp ne_of_lt⟩

/-- Witness for C8: a three-call serialised run at the default layout with
identities (2, 1) returns pairwise distinct, increasing values. -/
theorem run_calls_all_distinct_witness :
    List.Pairwise (· < ·)
        (run_calls ⟨0, 2, 1, 41, 12, 5, 5⟩ ⟨0, 0⟩ [(1, 0), (1, 0), (2, 0)]).2 ∧
      (run_calls ⟨0, 2, 1, 41, 12, 5, 5⟩ ⟨0, 0⟩ [(1, 0), (1, 0), (2, 0)]).2.Nodup :=
  run_calls_all_distinct ⟨0, 2, 1, 41, 12, 5, 5⟩ ⟨0, 0⟩ [(1, 0), (1, 0), (2, 0)]
    (by decide) (by decide)

end SnowflakeRs
